import Mathlib

/-!
Verification development for the output-buffering stage of the telegraf
metrics agent: the ring `Buffer` (`internal/models` buffer file) and the
`RunningOutput` output stage (`internal/models/running_output.go`).

Embedding conventions:
* A `telegraf.Metric` is an immutable record of name, tags, fields and
  timestamp; tag and field maps are embedded as association lists, the
  timestamp as a `Nat`.  The metric type is consumed as an external,
  immutable value, so only the four accessors matter.
* The Go `Buffer` is a buffered channel of capacity `size`; we embed it as
  the list of currently held metrics, oldest first, plus the capacity and
  the `drops` counter.  A channel send succeeds exactly when
  `length < size`, and a receive takes the head.
* The sink (`telegraf.Output.Write`) is embedded as an oracle
  `sink : Nat → Bool` giving the success/failure of the n-th actual sink
  invocation; a call counter `k` is threaded through every operation that
  may invoke the sink.  `true` models a nil error.
* `log.Printf` output is not modelled (observational only); the `Quiet`
  flag is carried but has no modelled effect.
-/

namespace Telegraf

/-- A telegraf metric: immutable name, tag map, field map, timestamp. -/
structure Metric where
  name : String
  tags : List (String × String)
  fields : List (String × Int)
  time : Nat
deriving DecidableEq, Repr

/-- The ring buffer: Go `Buffer` holds a buffered channel `buf` of capacity
`size` and an eviction counter `drops`.  `buf` lists held metrics oldest
first. -/
structure Buffer where
  size : Nat
  buf : List Metric
  drops : Nat
deriving DecidableEq, Repr

/-- Go `NewBuffer(size)`: empty channel of capacity `size`, zero drops. -/
def NewBuffer (size : Nat) : Buffer :=
  { size := size, buf := [], drops := 0 }

/-- Go `Buffer.IsEmpty()`. -/
def Buffer.IsEmpty (b : Buffer) : Bool :=
  b.buf.length = 0

/-- Go `Buffer.Len()`. -/
def Buffer.Len (b : Buffer) : Nat :=
  b.buf.length

/-- One iteration of the loop body of Go `Buffer.Add`: the `select` sends if
the channel has room (`length < size`), otherwise takes the `default`
branch: increment `drops`, receive one element from the head, then send.
(The final send requires `0 < size` in the Go code to terminate; theorems
below carry that hypothesis.) -/
def Buffer.addOne (b : Buffer) (m : Metric) : Buffer :=
  if b.buf.length < b.size then
    { b with buf := b.buf ++ [m] }
  else
    { b with drops := b.drops + 1, buf := b.buf.tail ++ [m] }

/-- Go `Buffer.Add(metrics ...)`: the loop over `metrics`, applying the
`select` body per element in call order. -/
def Buffer.Add (b : Buffer) (metrics : List Metric) : Buffer :=
  metrics.foldl Buffer.addOne b

/-- Go `min(a, b int) int`: `if b < a { return b }; return a`. -/
def goMin (a b : Nat) : Nat :=
  if b < a then b else a

/-- Go `Buffer.Batch(batchSize)`: `n := min(len(b.buf), batchSize)`, then
receive `n` elements from the head into the result slice. -/
def Buffer.Batch (b : Buffer) (batchSize : Nat) : List Metric × Buffer :=
  let n := goMin b.buf.length batchSize
  (b.buf.take n, { b with buf := b.buf.drop n })

/-- The filter configuration consumed by the output stage.  The filter
package is outside this fragment, so `ShouldMetricPass` and `FilterTags`
are carried as abstract functions (black-box predicate and tag-rewrite, as
the spec describes the consumed interface). -/
structure Filter where
  IsActive : Bool
  ShouldMetricPass : Metric → Bool
  TagInclude : List String
  TagExclude : List String
  FilterTags : List (String × String) → List (String × String)

/-- Go `OutputConfig`. -/
structure OutputConfig where
  Name : String
  Filter : Filter

/-- Go `DEFAULT_METRIC_BATCH_SIZE`. -/
def DEFAULT_METRIC_BATCH_SIZE : Nat := 1000

/-- Go `DEFAULT_METRIC_BUFFER_LIMIT`. -/
def DEFAULT_METRIC_BUFFER_LIMIT : Nat := 10000

/-- Go `RunningOutput`.  The sink handle `Output` is not a field here: it is
passed to each operation as the oracle `sink` together with the invocation
counter. -/
structure RunningOutput where
  Name : String
  Config : OutputConfig
  Quiet : Bool
  MetricBufferLimit : Nat
  MetricBatchSize : Nat
  metrics : Buffer
  failMetrics : Buffer

/-- Go `NewRunningOutput`: zero batch size / buffer limit fall back to the
defaults; the primary buffer gets capacity `batchSize`, the fail buffer
capacity `bufferLimit`. -/
def NewRunningOutput (name : String) (conf : OutputConfig)
    (batchSize bufferLimit : Nat) : RunningOutput :=
  let bufferLimit := if bufferLimit = 0 then DEFAULT_METRIC_BUFFER_LIMIT else bufferLimit
  let batchSize := if batchSize = 0 then DEFAULT_METRIC_BATCH_SIZE else batchSize
  { Name := name
    Config := conf
    Quiet := false
    MetricBufferLimit := bufferLimit
    MetricBatchSize := batchSize
    metrics := NewBuffer batchSize
    failMetrics := NewBuffer bufferLimit }

/-- Result of the shared write primitive: the receiver (unchanged by the Go
method, which touches no buffer), the success flag (`true` models a nil
error), and the sink-invocation counter. -/
structure SendRes where
  ro : RunningOutput
  ok : Bool
  k : Nat

/-- Go `RunningOutput.write(metrics)`: empty batch returns nil without
touching the sink; otherwise the sink is invoked once (consuming one
oracle index) and its error is returned.  The success log line is not
modelled. -/
def RunningOutput.write (ro : RunningOutput) (sink : Nat → Bool) (k : Nat)
    (metrics : List Metric) : SendRes :=
  if metrics.length = 0 then
    ⟨ro, true, k⟩
  else
    ⟨ro, sink k, k + 1⟩

/-- Go `RunningOutput.AddMetric(metric)`: filter check, tag rewrite, insert
into the primary buffer, and flush of a full batch (re-queuing it into the
fail buffer on sink failure).  Returns the new state and sink counter. -/
def RunningOutput.AddMetric (ro : RunningOutput) (sink : Nat → Bool) (k : Nat)
    (metric : Metric) : RunningOutput × Nat :=
  if ro.Config.Filter.IsActive && !(ro.Config.Filter.ShouldMetricPass metric) then
    (ro, k)
  else
    let metric :=
      if ro.Config.Filter.TagExclude.length ≠ 0 ∨ ro.Config.Filter.TagInclude.length ≠ 0 then
        { name := metric.name
          tags := ro.Config.Filter.FilterTags metric.tags
          fields := metric.fields
          time := metric.time }
      else metric
    let ro1 := { ro with metrics := ro.metrics.Add [metric] }
    if ro1.metrics.Len = ro1.MetricBatchSize then
      let p := ro1.metrics.Batch ro1.MetricBatchSize
      let ro2 := { ro1 with metrics := p.2 }
      let w := ro2.write sink k p.1
      if w.ok then (w.ro, w.k)
      else ({ w.ro with failMetrics := w.ro.failMetrics.Add p.1 }, w.k)
    else (ro1, k)

/-- Result of the fail-buffer drain loop inside Go `RunningOutput.Write`:
final state, sink counter, and a ghost trace recording the length of the
batch extracted from the fail buffer at each loop iteration (instrumentation
only; it influences nothing). -/
structure DrainRes where
  ro : RunningOutput
  k : Nat
  trace : List Nat

/-- One iteration of the drain loop body of Go `RunningOutput.Write`:
extract a batch of (at most) `bS` metrics from the fail buffer, send it via
the write primitive, and on failure re-queue the batch into the fail
buffer.  Returns the new state, the sink counter, and (ghost) the length
of the extracted batch. -/
def RunningOutput.drainStep (ro : RunningOutput) (sink : Nat → Bool) (k : Nat)
    (bS : Nat) : RunningOutput × Nat × Nat :=
  let p := ro.failMetrics.Batch bS
  let ro1 := { ro with failMetrics := p.2 }
  let w := ro1.write sink k p.1
  let ro2 := if w.ok then w.ro else { w.ro with failMetrics := w.ro.failMetrics.Add p.1 }
  (ro2, w.k, p.1.length)

/-- The `for i := 0; i < nBatches; i++` loop of Go `RunningOutput.Write`,
with the loop counter transformed to the remaining iteration count
`rem = nBatches - i` so that the recursion is structural: the Go test
`i == nBatches-1` (last iteration, which shrinks the batch size to
`bufLen % MetricBatchSize`) becomes `rem = 1`.  Each iteration runs the
loop body `drainStep`. -/
def RunningOutput.drainGo (sink : Nat → Bool) (bufLen : Nat) :
    Nat → RunningOutput → Nat → DrainRes
  | 0, ro, k => ⟨ro, k, []⟩
  | rem + 1, ro, k =>
    let bS := if rem = 0 then bufLen % ro.MetricBatchSize else ro.MetricBatchSize
    let st := ro.drainStep sink k bS
    let r := RunningOutput.drainGo sink bufLen rem st.1 st.2.1
    ⟨r.ro, r.k, st.2.2 :: r.trace⟩

/-- Result of Go `RunningOutput.Write`: final state, returned error as a
success flag (`true` models a nil return), sink counter, and the ghost
drain trace. -/
structure WriteRes where
  ro : RunningOutput
  ok : Bool
  k : Nat
  trace : List Nat

/-- The opening `if !ro.failMetrics.IsEmpty()` block of Go
`RunningOutput.Write()` (factored out so the drain phase can be named in
theorems): when the fail buffer is non-empty, compute
`bufLen := failMetrics.Len()` and `nBatches := bufLen/MetricBatchSize + 1`
and run the drain loop; otherwise state and counter pass through with an
empty trace. -/
def RunningOutput.WriteDrain (ro : RunningOutput) (sink : Nat → Bool)
    (k : Nat) : DrainRes :=
  if !ro.failMetrics.IsEmpty then
    let bufLen := ro.failMetrics.Len
    let nBatches := bufLen / ro.MetricBatchSize + 1
    RunningOutput.drainGo sink bufLen nBatches ro k
  else ⟨ro, k, []⟩

/-- Go `RunningOutput.Write()`: drain the fail buffer (when non-empty) in
`nBatches = bufLen / MetricBatchSize + 1` iterations, then extract one
batch from the primary buffer, send it, re-queue it into the fail buffer
on failure, and return that final send's error. -/
def RunningOutput.Write (ro : RunningOutput) (sink : Nat → Bool) (k : Nat) :
    WriteRes :=
  let d := ro.WriteDrain sink k
  let p := d.ro.metrics.Batch d.ro.MetricBatchSize
  let ro1 := { d.ro with metrics := p.2 }
  let w := ro1.write sink d.k p.1
  if w.ok then ⟨w.ro, true, w.k, d.trace⟩
  else ⟨{ w.ro with failMetrics := w.ro.failMetrics.Add p.1 }, false, w.k, d.trace⟩

/-- A sequence of sequential `AddMetric` calls, threading state and sink
counter. -/
def AddMetricSeq (ro : RunningOutput) (sink : Nat → Bool) (k : Nat)
    (metrics : List Metric) : RunningOutput × Nat :=
  metrics.foldl (fun p m => RunningOutput.AddMetric p.1 sink p.2 m) (ro, k)

/-- Modelled from the spec: the filter package's `FilterTags` is not part of
this repository fragment (only its consumed interface is).  Per the spec it
rewrites a tag map by the inclusion/exclusion rules: when `TagInclude` is
non-empty keep only tags whose key is included, then when `TagExclude` is
non-empty delete tags whose key is excluded. -/
def specFilterTags (tagInclude tagExclude : List String)
    (tags : List (String × String)) : List (String × String) :=
  let t := if tagInclude.length ≠ 0 then tags.filter (fun p => tagInclude.contains p.1) else tags
  if tagExclude.length ≠ 0 then t.filter (fun p => !(tagExclude.contains p.1)) else t

/-! ### Concrete instances used to exercise the model -/

/-- A metric with only a name, for concrete scenarios. -/
def mkMetric (s : String) : Metric :=
  { name := s, tags := [], fields := [], time := 0 }

/-- A sink that always fails. -/
def failSink : Nat → Bool := fun _ => false

/-- A sink that always succeeds. -/
def okSink : Nat → Bool := fun _ => true

/-- An inactive filter with no tag rules. -/
def noFilter : Filter :=
  { IsActive := false, ShouldMetricPass := fun _ => true,
    TagInclude := [], TagExclude := [], FilterTags := id }

/-- An output config with an inactive filter. -/
def cfgNone : OutputConfig := { Name := "cfg", Filter := noFilter }

/-- A capacity-2 buffer filled to capacity. -/
def wbFull : Buffer := (NewBuffer 2).Add [mkMetric "a", mkMetric "b"]

/-- A capacity-6 buffer filled to capacity (fail-buffer overflow scenario). -/
def c6Full : Buffer :=
  (NewBuffer 6).Add
    [mkMetric "a1", mkMetric "a2", mkMetric "a3",
     mkMetric "a4", mkMetric "a5", mkMetric "a6"]

/-- Output stage with batch size 2, buffer limit 4, and a fail buffer
holding two metrics (spec scenario B after the failed flush). -/
def roScenB : RunningOutput :=
  { NewRunningOutput "out" cfgNone 2 4 with
    failMetrics := (NewBuffer 4).Add [mkMetric "m1", mkMetric "m2"] }

/-- Output stage with batch size 2 and one metric sitting in the primary
buffer (for the error-propagation scenario). -/
def roHalf : RunningOutput :=
  { NewRunningOutput "out" cfgNone 2 4 with
    metrics := (NewBuffer 2).Add [mkMetric "m1"] }

/-- An active filter that rejects every metric. -/
def rejectFilter : Filter :=
  { IsActive := true, ShouldMetricPass := fun _ => false,
    TagInclude := [], TagExclude := [], FilterTags := id }

/-- Output stage whose filter rejects everything. -/
def roReject : RunningOutput :=
  NewRunningOutput "out" { Name := "cfg", Filter := rejectFilter } 2 4

/-- A filter excluding the `host` tag, with the spec-modelled tag rewrite. -/
def hostExcludeFilter : Filter :=
  { IsActive := false, ShouldMetricPass := fun _ => true,
    TagInclude := [], TagExclude := ["host"],
    FilterTags := specFilterTags [] ["host"] }

/-- Output stage configured with `TagExclude = {"host"}` and default batch
size / buffer limit (spec scenario C). -/
def roHostExclude : RunningOutput :=
  NewRunningOutput "out" { Name := "cfg", Filter := hostExcludeFilter } 0 0

/-- A metric tagged `host=a,region=b` (spec scenario C). -/
def mHostRegion : Metric :=
  { name := "cpu", tags := [("host", "a"), ("region", "b")],
    fields := [("usage", 1)], time := 42 }

/-! ### Basic lemmas about the ring buffer -/

theorem goMin_eq_min (a b : Nat) : goMin a b = min a b := by
  unfold goMin
  split <;> omega

theorem take_min_length (l : List Metric) (k : Nat) :
    l.take (min l.length k) = l.take k := by
  rcases Nat.le_total l.length k with h | h
  · rw [min_eq_left h, List.take_length, List.take_of_length_le h]
  · rw [min_eq_right h]

theorem drop_min_length (l : List Metric) (k : Nat) :
    l.drop (min l.length k) = l.drop k := by
  rcases Nat.le_total l.length k with h | h
  · rw [min_eq_left h, List.drop_length, List.drop_eq_nil_of_le h]
  · rw [min_eq_right h]

theorem Batch_fst (b : Buffer) (k : Nat) : (b.Batch k).1 = b.buf.take k := by
  simp only [Buffer.Batch, goMin_eq_min]
  exact take_min_length b.buf k

theorem Batch_fst_length (b : Buffer) (k : Nat) :
    (b.Batch k).1.length = min b.Len k := by
  rw [Batch_fst, List.length_take]
  exact min_comm k b.Len

theorem Batch_snd (b : Buffer) (k : Nat) :
    (b.Batch k).2 = { b with buf := b.buf.drop k } := by
  simp only [Buffer.Batch, goMin_eq_min]
  rw [drop_min_length b.buf k]

theorem addOne_size (b : Buffer) (m : Metric) : (b.addOne m).size = b.size := by
  unfold Buffer.addOne
  split <;> rfl

theorem Add_size (b : Buffer) (ms : List Metric) : (b.Add ms).size = b.size := by
  induction ms generalizing b with
  | nil => rfl
  | cons m ms ih =>
    show ((b.addOne m).Add ms).size = b.size
    rw [ih, addOne_size]

/-- Characterization of `Buffer.Add` on a well-formed buffer: the new
contents are the trailing segment of the old contents followed by the new
metrics, one eviction (and one drop increment) per overflowing element. -/
theorem Add_spec (ms : List Metric) : ∀ b : Buffer, 0 < b.size →
    b.buf.length ≤ b.size →
    (b.Add ms).buf = (b.buf ++ ms).drop (b.buf.length + ms.length - b.size) ∧
    (b.Add ms).drops = b.drops + (b.buf.length + ms.length - b.size) := by
  induction ms with
  | nil =>
    intro b hpos hlen
    have hA : b.Add [] = b := rfl
    have h0 : b.buf.length + ([] : List Metric).length - b.size = 0 := by
      simp only [List.length_nil]
      omega
    rw [hA, List.append_nil, h0, List.drop_zero]
    exact ⟨rfl, by omega⟩
  | cons m ms ih =>
    intro b hpos hlen
    have hstep : b.Add (m :: ms) = (b.addOne m).Add ms := rfl
    by_cases h : b.buf.length < b.size
    · have hone : b.addOne m = { b with buf := b.buf ++ [m] } := by
        unfold Buffer.addOne
        rw [if_pos h]
      have hlen1 : (b.buf ++ [m]).length ≤ b.size := by
        rw [List.length_append, List.length_singleton]
        omega
      obtain ⟨hbuf, hdrops⟩ := ih { b with buf := b.buf ++ [m] } hpos hlen1
      rw [hstep, hone]
      refine ⟨?_, ?_⟩
      · rw [hbuf]
        have harr : (b.buf ++ [m]) ++ ms = b.buf ++ m :: ms := by
          rw [List.append_assoc, List.singleton_append]
        rw [harr]
        have hn : (b.buf ++ [m]).length + ms.length - b.size
            = b.buf.length + (m :: ms).length - b.size := by
          rw [List.length_append, List.length_singleton, List.length_cons]
          omega
        rw [hn]
      · rw [hdrops]
        have hn : (b.buf ++ [m]).length + ms.length - b.size
            = b.buf.length + (m :: ms).length - b.size := by
          rw [List.length_append, List.length_singleton, List.length_cons]
          omega
        rw [hn]
    · have hfull : b.buf.length = b.size := by omega
      have hone : b.addOne m = { b with drops := b.drops + 1, buf := b.buf.tail ++ [m] } := by
        unfold Buffer.addOne
        rw [if_neg h]
      obtain ⟨hd, tl, hbt⟩ : ∃ hd tl, b.buf = hd :: tl := by
        cases hb : b.buf with
        | nil =>
          exfalso
          rw [hb] at hfull
          simp at hfull
          omega
        | cons hd tl => exact ⟨hd, tl, rfl⟩
      have htail : b.buf.tail = tl := by rw [hbt]; rfl
      have htl : tl.length + 1 = b.size := by
        have := hfull
        rw [hbt] at this
        simpa using this
      have hlen1 : (b.buf.tail ++ [m]).length ≤ b.size := by
        rw [htail, List.length_append, List.length_singleton]
        omega
      obtain ⟨hbuf, hdrops⟩ := ih { b with drops := b.drops + 1, buf := b.buf.tail ++ [m] }
        hpos hlen1
      rw [hstep, hone]
      refine ⟨?_, ?_⟩
      · rw [hbuf]
        show ((b.buf.tail ++ [m]) ++ ms).drop ((b.buf.tail ++ [m]).length + ms.length - b.size)
          = (b.buf ++ m :: ms).drop (b.buf.length + (m :: ms).length - b.size)
        rw [htail, hbt]
        have harr : (tl ++ [m]) ++ ms = tl ++ m :: ms := by
          rw [List.append_assoc, List.singleton_append]
        rw [harr]
        have hn1 : (tl ++ [m]).length + ms.length - b.size = ms.length := by
          rw [List.length_append, List.length_singleton]
          omega
        have hn2 : (hd :: tl).length + (m :: ms).length - b.size = ms.length + 1 := by
          rw [List.length_cons, List.length_cons]
          omega
        rw [hn1, hn2]
        rw [List.cons_append, List.drop_succ_cons]
      · rw [hdrops]
        show b.drops + 1 + ((b.buf.tail ++ [m]).length + ms.length - b.size)
          = b.drops + (b.buf.length + (m :: ms).length - b.size)
        rw [htail, hbt, List.length_append, List.length_singleton, List.length_cons,
          List.length_cons]
        omega

/-- `Add` into a buffer with enough room appends without eviction. -/
theorem Add_room (b : Buffer) (ms : List Metric) (hpos : 0 < b.size)
    (hroom : b.buf.length + ms.length ≤ b.size) :
    (b.Add ms).buf = b.buf ++ ms ∧ (b.Add ms).drops = b.drops := by
  obtain ⟨hbuf, hdrops⟩ := Add_spec ms b hpos (by omega)
  rw [Nat.sub_eq_zero_of_le hroom] at hbuf hdrops
  rw [List.drop_zero] at hbuf
  rw [Nat.add_zero] at hdrops
  exact ⟨hbuf, hdrops⟩

/-- Consecutive `Add` calls compose into one `Add` of the concatenation. -/
theorem Add_append (b : Buffer) (xs ys : List Metric) :
    (b.Add xs).Add ys = b.Add (xs ++ ys) := by
  unfold Buffer.Add
  rw [List.foldl_append]

/-- A sequence of `Add` calls equals a single `Add` of the joined inputs. -/
theorem foldl_Add_eq_join (calls : List (List Metric)) :
    ∀ b : Buffer, calls.foldl Buffer.Add b = b.Add calls.flatten := by
  induction calls with
  | nil => intro b; rfl
  | cons c cs ih =>
    intro b
    show cs.foldl Buffer.Add (b.Add c) = b.Add (c :: cs).flatten
    rw [ih, Add_append, List.flatten_cons]

/-! ### The claims -/

/-- C1: for every buffer constructed with capacity `C` and every sequence
of `Add` calls, the length never exceeds `C`, and a subsequent `Batch k`
returns the surviving (non-evicted) metrics in original insertion order —
namely the first `k` of the last `min(total, C)` inserted metrics — with
exactly `min(length, k)` elements. -/
theorem C1_capacity_and_order (C k : Nat) (hC : 0 < C)
    (calls : List (List Metric)) :
    (calls.foldl Buffer.Add (NewBuffer C)).Len ≤ C ∧
    ((calls.foldl Buffer.Add (NewBuffer C)).Batch k).1
      = (calls.flatten.drop (calls.flatten.length - C)).take k ∧
    ((calls.foldl Buffer.Add (NewBuffer C)).Batch k).1.length
      = min (calls.foldl Buffer.Add (NewBuffer C)).Len k := by
  rw [foldl_Add_eq_join]
  have hbuf := (Add_spec calls.flatten (NewBuffer C) hC (by simp [NewBuffer])).1
  have hb0 : (NewBuffer C).buf = [] := rfl
  have hsz : (NewBuffer C).size = C := rfl
  rw [hb0, hsz, List.nil_append] at hbuf
  simp only [List.length_nil, Nat.zero_add] at hbuf
  refine ⟨?_, ?_, ?_⟩
  · show ((NewBuffer C).Add calls.flatten).buf.length ≤ C
    rw [hbuf, List.length_drop]
    omega
  · rw [Batch_fst, hbuf]
  · exact Batch_fst_length _ k

/-- C1 witness: three `Add` calls pushing five metrics through a capacity-2
buffer leave two metrics, and `Batch 2` returns them in insertion order. -/
theorem C1_capacity_and_order_witness :
    ([[mkMetric "a", mkMetric "b"], [mkMetric "c"],
        [mkMetric "d", mkMetric "e"]].foldl Buffer.Add (NewBuffer 2)).Len ≤ 2 ∧
    (([[mkMetric "a", mkMetric "b"], [mkMetric "c"],
        [mkMetric "d", mkMetric "e"]].foldl Buffer.Add (NewBuffer 2)).Batch 2).1
      = [mkMetric "d", mkMetric "e"] := by
  have h := C1_capacity_and_order 2 2 (by decide)
    [[mkMetric "a", mkMetric "b"], [mkMetric "c"], [mkMetric "d", mkMetric "e"]]
  refine ⟨h.1, ?_⟩
  rw [h.2.1]
  rfl

/-- C2: a single insertion into a full buffer evicts exactly the head,
increments the drop counter by exactly 1 and keeps the length; moreover,
inserting `C+1` metrics into an empty capacity-`C` buffer and draining with
`Batch C` yields the last `C` inserted metrics oldest-first, with exactly
one drop. -/
theorem C2_overflow_drop_oldest (b : Buffer) (m : Metric)
    (hC : 0 < b.size) (hfull : b.Len = b.size) :
    (b.Add [m]).buf = b.buf.tail ++ [m] ∧
    (b.Add [m]).drops = b.drops + 1 ∧
    (b.Add [m]).Len = b.Len ∧
    (∀ (c : Nat) (ms : List Metric), 0 < c → ms.length = c + 1 →
      (((NewBuffer c).Add ms).Batch c).1 = ms.tail ∧
      ((NewBuffer c).Add ms).drops = 1) := by
  have hone : b.Add [m] = b.addOne m := rfl
  have hlen : b.buf.length = b.size := hfull
  have haddOne : b.addOne m = { b with drops := b.drops + 1, buf := b.buf.tail ++ [m] } := by
    unfold Buffer.addOne
    rw [if_neg (by omega)]
  refine ⟨?_, ?_, ?_, ?_⟩
  · rw [hone, haddOne]
  · rw [hone, haddOne]
  · rw [hone, haddOne]
    show (b.buf.tail ++ [m]).length = b.buf.length
    rw [List.length_append, List.length_tail, List.length_singleton]
    omega
  · intro c ms hc hms
    have hfit : (NewBuffer c).buf.length ≤ (NewBuffer c).size := by
      show ([] : List Metric).length ≤ c
      simp
    obtain ⟨hbuf, hdrops⟩ := Add_spec ms (NewBuffer c) hc hfit
    have hn : (NewBuffer c).buf.length + ms.length - (NewBuffer c).size = 1 := by
      show ([] : List Metric).length + ms.length - c = 1
      rw [List.length_nil, hms]
      omega
    rw [hn] at hbuf hdrops
    have hbuf1 : ((NewBuffer c).Add ms).buf = ms.tail := by
      rw [hbuf]
      show (((NewBuffer c).buf ++ ms).drop 1) = ms.tail
      have : (NewBuffer c).buf ++ ms = ms := by
        show [] ++ ms = ms
        rw [List.nil_append]
      rw [this, List.drop_one]
    constructor
    · rw [Batch_fst, hbuf1]
      apply List.take_of_length_le
      rw [List.length_tail, hms]
      omega
    · rw [hdrops]
      rfl

/-- C2 witness: the full capacity-2 buffer `[a, b]` plus `c` becomes
`[b, c]` with one drop; three metrics through an empty capacity-2 buffer
drain to the last two with exactly one drop. -/
theorem C2_overflow_drop_oldest_witness :
    (wbFull.Add [mkMetric "c"]).buf = wbFull.buf.tail ++ [mkMetric "c"] ∧
    (wbFull.Add [mkMetric "c"]).drops = wbFull.drops + 1 ∧
    (((NewBuffer 2).Add [mkMetric "a", mkMetric "b", mkMetric "c"]).Batch 2).1
      = [mkMetric "b", mkMetric "c"] ∧
    ((NewBuffer 2).Add [mkMetric "a", mkMetric "b", mkMetric "c"]).drops = 1 := by
  have h := C2_overflow_drop_oldest wbFull (mkMetric "c") (by decide) (by decide)
  have h2 := h.2.2.2 2 [mkMetric "a", mkMetric "b", mkMetric "c"] (by decide) (by decide)
  refine ⟨h.1, h.2.1, ?_, h2.2⟩
  rw [h2.1]
  rfl

/-- C3: `Batch k` removes and returns exactly `min(length, k)` metrics from
the head, oldest first (returned ++ remaining = original contents), never
touches the drop counter or the capacity, and on an empty buffer returns
the empty sequence leaving the buffer unchanged. -/
theorem C3_batch_removes_min (b : Buffer) (k : Nat) :
    (b.Batch k).1 = b.buf.take (min b.Len k) ∧
    (b.Batch k).1.length = min b.Len k ∧
    (b.Batch k).1 ++ (b.Batch k).2.buf = b.buf ∧
    (b.Batch k).2.drops = b.drops ∧
    (b.Batch k).2.size = b.size ∧
    (b.IsEmpty = true → (b.Batch k).1 = [] ∧ (b.Batch k).2 = b) := by
  refine ⟨?_, Batch_fst_length b k, ?_, ?_, ?_, ?_⟩
  · rw [Batch_fst]
    exact (take_min_length b.buf k).symm
  · rw [Batch_fst, Batch_snd]
    exact List.take_append_drop k b.buf
  · rw [Batch_snd]
  · rw [Batch_snd]
  · intro hempty
    have hnil : b.buf = [] := by
      have : b.buf.length = 0 := by
        have := of_decide_eq_true hempty
        exact this
      exact List.eq_nil_of_length_eq_zero this
    constructor
    · rw [Batch_fst, hnil, List.take_nil]
    · rw [Batch_snd, hnil]
      show ({ b with buf := ([] : List Metric).drop k } : Buffer) = b
      rw [List.drop_nil, ← hnil]

/-- C3 witness: on the empty capacity-3 buffer, `Batch 5` returns nothing
and changes nothing. -/
theorem C3_batch_removes_min_witness :
    ((NewBuffer 3).Batch 5).1 = [] ∧ ((NewBuffer 3).Batch 5).2 = NewBuffer 3 := by
  exact (C3_batch_removes_min (NewBuffer 3) 5).2.2.2.2.2 (by decide)

/-- C6 counterexample: with fail-buffer capacity `L = 6` full and one more
failed batch of `batchsize = 2` metrics, the drop counter increases by the
batch size 2, not by `L - batchsize = 4`: the claim's eviction count
`L - batchsize` is wrong at this input. -/
theorem C6_counterexample :
    ¬ ((c6Full.Add [mkMetric "b1", mkMetric "b2"]).drops
        = c6Full.drops + (6 - 2)) := by
  decide

/-- C6 amended: after the fail buffer (capacity `L`) is full, appending one
more failed batch of `n ≤ L` metrics evicts exactly the `n` oldest metrics,
increments the drop counter by exactly `n`, and leaves the length at `L`. -/
theorem C6_overflow_evicts_batchsize (b : Buffer) (ms : List Metric)
    (hC : 0 < b.size) (hfull : b.Len = b.size) (hms : ms.length ≤ b.size) :
    (b.Add ms).buf = b.buf.drop ms.length ++ ms ∧
    (b.Add ms).drops = b.drops + ms.length ∧
    (b.Add ms).Len = b.size := by
  have hlen : b.buf.length = b.size := hfull
  obtain ⟨hbuf, hdrops⟩ := Add_spec ms b hC (by omega)
  have hn : b.buf.length + ms.length - b.size = ms.length := by omega
  rw [hn] at hbuf hdrops
  have hsplit : (b.buf ++ ms).drop ms.length = b.buf.drop ms.length ++ ms := by
    rw [List.drop_append_eq_append_drop, Nat.sub_eq_zero_of_le (by omega), List.drop_zero]
  refine ⟨?_, hdrops, ?_⟩
  · rw [hbuf, hsplit]
  · show (b.Add ms).buf.length = b.size
    rw [hbuf, hsplit, List.length_append, List.length_drop]
    omega

/-- C6 witness: capacity-6 full buffer plus a failed batch of 2 evicts the
two oldest metrics, adds 2 drops, and stays at length 6. -/
theorem C6_overflow_evicts_batchsize_witness :
    (c6Full.Add [mkMetric "b1", mkMetric "b2"]).buf
      = c6Full.buf.drop 2 ++ [mkMetric "b1", mkMetric "b2"] ∧
    (c6Full.Add [mkMetric "b1", mkMetric "b2"]).drops = c6Full.drops + 2 ∧
    (c6Full.Add [mkMetric "b1", mkMetric "b2"]).Len = 6 := by
  have h := C6_overflow_evicts_batchsize c6Full [mkMetric "b1", mkMetric "b2"]
    (by decide) (by decide) (by decide)
  exact h

/-- The shared write primitive never modifies the receiver. -/
theorem write_ro (ro : RunningOutput) (sink : Nat → Bool) (k : Nat)
    (ms : List Metric) : (ro.write sink k ms).ro = ro := by
  unfold RunningOutput.write
  split <;> rfl

/-- C7: the shared write primitive succeeds on the empty batch without
invoking the sink (counter untouched) and without modifying the receiver —
so neither buffer changes; on a non-empty batch whose sink write fails it
propagates the sink's error, again leaving the receiver (hence both the
primary and the fail buffer) unmodified. -/
theorem C7_write_primitive (ro : RunningOutput) (sink : Nat → Bool) (k : Nat)
    (ms : List Metric) :
    ro.write sink k [] = ⟨ro, true, k⟩ ∧
    (ms ≠ [] → sink k = false → ro.write sink k ms = ⟨ro, false, k + 1⟩) := by
  constructor
  · rfl
  · intro hms hsink
    unfold RunningOutput.write
    rw [if_neg (fun h => hms (List.eq_nil_of_length_eq_zero h)), hsink]

/-- C7 witness: the empty batch succeeds with no sink call; a singleton
batch against the failing sink returns the error with state intact. -/
theorem C7_write_primitive_witness :
    roHalf.write failSink 0 [] = ⟨roHalf, true, 0⟩ ∧
    roHalf.write failSink 0 [mkMetric "m1"] = ⟨roHalf, false, 1⟩ := by
  have h := C7_write_primitive roHalf failSink 0 [mkMetric "m1"]
  exact ⟨h.1, h.2 (List.cons_ne_nil _ _) rfl⟩

/-- C8: a metric rejected by an active filter leaves `AddMetric` without
observable effect: the returned state is exactly the input state (both
buffers with their contents, lengths and drop counters) and the sink
counter is unchanged, i.e. the sink is never invoked. -/
theorem C8_rejected_metric_no_effect (ro : RunningOutput) (sink : Nat → Bool)
    (k : Nat) (m : Metric) (hact : ro.Config.Filter.IsActive = true)
    (hrej : ro.Config.Filter.ShouldMetricPass m = false) :
    ro.AddMetric sink k m = (ro, k) := by
  unfold RunningOutput.AddMetric
  rw [hact, hrej]
  simp

/-- C8 witness: the always-rejecting active filter makes `AddMetric` a
no-op. -/
theorem C8_rejected_metric_no_effect_witness :
    roReject.AddMetric failSink 0 (mkMetric "m1") = (roReject, 0) :=
  C8_rejected_metric_no_effect roReject failSink 0 (mkMetric "m1") rfl rfl

/-- C9: when the filter accepts a metric and tag inclusion/exclusion rules
are configured, `AddMetric` buffers a new metric whose tags are the
filtered tag set and whose name, fields and timestamp are those of the
input (stated below batch size, so the insertion is the entire effect). -/
theorem C9_tag_rewrite_buffered (ro : RunningOutput) (sink : Nat → Bool)
    (k : Nat) (m : Metric)
    (hpass : ro.Config.Filter.IsActive = false ∨
      ro.Config.Filter.ShouldMetricPass m = true)
    (hrules : ro.Config.Filter.TagExclude.length ≠ 0 ∨
      ro.Config.Filter.TagInclude.length ≠ 0)
    (hnoflush : (ro.metrics.Add
        [{ name := m.name, tags := ro.Config.Filter.FilterTags m.tags,
           fields := m.fields, time := m.time }]).Len ≠ ro.MetricBatchSize) :
    ro.AddMetric sink k m
      = ({ ro with metrics := (ro.metrics.Add
            [{ name := m.name, tags := ro.Config.Filter.FilterTags m.tags,
               fields := m.fields, time := m.time }]) }, k) := by
  unfold RunningOutput.AddMetric
  have hcond : (ro.Config.Filter.IsActive
      && !(ro.Config.Filter.ShouldMetricPass m)) = false := by
    rcases hpass with h | h <;> rw [h] <;> simp
  rw [hcond]
  simp only [Bool.false_eq_true, if_false]
  rw [if_pos hrules]
  rw [if_neg hnoflush]

/-- C9 witness (spec scenario C): with `TagExclude = {"host"}` and the
spec-modelled tag rewrite, adding a metric tagged `host=a,region=b` buffers
a metric tagged only `region=b` with the same name, fields and timestamp. -/
theorem C9_tag_rewrite_buffered_witness :
    roHostExclude.AddMetric failSink 0 mHostRegion
      = ({ roHostExclude with metrics := (roHostExclude.metrics.Add
            [{ name := "cpu", tags := [("region", "b")],
               fields := [("usage", 1)], time := 42 }]) }, 0) := by
  have h := C9_tag_rewrite_buffered roHostExclude failSink 0 mHostRegion
    (Or.inl rfl) (Or.inl (by decide)) (by decide)
  rw [h]
  rfl

/-- One `AddMetric` call preserves the reachable-state invariant of the
primary buffer: capacity equals the batch size, the length is strictly
below it, and the drop counter is 0 (so the eviction branch of `Add` is
never reached). -/
theorem AddMetric_primary_inv (ro : RunningOutput) (sink : Nat → Bool)
    (k : Nat) (m : Metric) (hsz : ro.metrics.size = ro.MetricBatchSize)
    (hlt : ro.metrics.Len < ro.MetricBatchSize) (hdr : ro.metrics.drops = 0) :
    (ro.AddMetric sink k m).1.metrics.size
      = (ro.AddMetric sink k m).1.MetricBatchSize ∧
    (ro.AddMetric sink k m).1.metrics.Len
      < (ro.AddMetric sink k m).1.MetricBatchSize ∧
    (ro.AddMetric sink k m).1.metrics.drops = 0 := by
  unfold RunningOutput.AddMetric
  by_cases hc : (ro.Config.Filter.IsActive
      && !(ro.Config.Filter.ShouldMetricPass m)) = true
  · rw [if_pos hc]
    exact ⟨hsz, hlt, hdr⟩
  · rw [if_neg hc]
    simp only []
    set m1 := if ro.Config.Filter.TagExclude.length ≠ 0 ∨
        ro.Config.Filter.TagInclude.length ≠ 0 then
      { name := m.name, tags := ro.Config.Filter.FilterTags m.tags,
        fields := m.fields, time := m.time } else m with hm1
    have hroom : ro.metrics.buf.length < ro.metrics.size := by
      have : ro.metrics.Len < ro.metrics.size := by omega
      exact this
    have haddOne : ro.metrics.Add [m1] = ro.metrics.addOne m1 := rfl
    have hadd : ro.metrics.addOne m1 = { ro.metrics with buf := ro.metrics.buf ++ [m1] } := by
      unfold Buffer.addOne
      rw [if_pos hroom]
    have hlen1 : (ro.metrics.Add [m1]).Len = ro.metrics.Len + 1 := by
      rw [haddOne, hadd]
      show (ro.metrics.buf ++ [m1]).length = ro.metrics.buf.length + 1
      rw [List.length_append, List.length_singleton]
    have hsz1 : (ro.metrics.Add [m1]).size = ro.metrics.size := Add_size _ _
    have hdr1 : (ro.metrics.Add [m1]).drops = ro.metrics.drops := by
      rw [haddOne, hadd]
    by_cases hfull : (ro.metrics.Add [m1]).Len = ro.MetricBatchSize
    · rw [if_pos hfull]
      have hbatch : ((ro.metrics.Add [m1]).Batch ro.MetricBatchSize).2
          = { ro.metrics.Add [m1] with buf := (ro.metrics.Add [m1]).buf.drop ro.MetricBatchSize } :=
        Batch_snd _ _
      have hempty : ((ro.metrics.Add [m1]).Batch ro.MetricBatchSize).2.buf = [] := by
        rw [hbatch]
        show ((ro.metrics.Add [m1]).buf.drop ro.MetricBatchSize) = []
        apply List.drop_eq_nil_of_le
        have : (ro.metrics.Add [m1]).buf.length = ro.MetricBatchSize := hfull
        omega
      have hbs : 0 < ro.MetricBatchSize := by omega
      have hszb : ((ro.metrics.Add [m1]).Batch ro.MetricBatchSize).2.size
          = ro.metrics.size := by
        rw [hbatch, hsz1]
      have hdrb : ((ro.metrics.Add [m1]).Batch ro.MetricBatchSize).2.drops = 0 := by
        rw [hbatch]
        show (ro.metrics.Add [m1]).drops = 0
        rw [hdr1, hdr]
      have hlen0 : ((ro.metrics.Add [m1]).Batch ro.MetricBatchSize).2.Len = 0 := by
        show ((ro.metrics.Add [m1]).Batch ro.MetricBatchSize).2.buf.length = 0
        rw [hempty]
        rfl
      split
      · refine ⟨?_, ?_, ?_⟩
        · simp only [write_ro]
          exact hszb.trans hsz
        · simp only [write_ro]
          show ((ro.metrics.Add [m1]).Batch ro.MetricBatchSize).2.Len < ro.MetricBatchSize
          omega
        · simp only [write_ro]
          exact hdrb
      · refine ⟨?_, ?_, ?_⟩
        · simp only [write_ro]
          exact hszb.trans hsz
        · simp only [write_ro]
          show ((ro.metrics.Add [m1]).Batch ro.MetricBatchSize).2.Len < ro.MetricBatchSize
          omega
        · simp only [write_ro]
          exact hdrb
    · rw [if_neg hfull]
      rw [hlen1] at hfull
      refine ⟨?_, ?_, ?_⟩
      · show (ro.metrics.Add [m1]).size = ro.MetricBatchSize
        rw [hsz1, hsz]
      · show (ro.metrics.Add [m1]).Len < ro.MetricBatchSize
        rw [hlen1]
        omega
      · show (ro.metrics.Add [m1]).drops = 0
        rw [hdr1, hdr]

/-- The invariant of `AddMetric_primary_inv` carried through a whole
sequence of sequential `AddMetric` calls, including that the batch size
itself never changes. -/
theorem AddMetricSeq_primary_inv (ms : List Metric) :
    ∀ (ro : RunningOutput) (sink : Nat → Bool) (k : Nat),
    ro.metrics.size = ro.MetricBatchSize →
    ro.metrics.Len < ro.MetricBatchSize →
    ro.metrics.drops = 0 →
    (AddMetricSeq ro sink k ms).1.metrics.size
      = (AddMetricSeq ro sink k ms).1.MetricBatchSize ∧
    (AddMetricSeq ro sink k ms).1.metrics.Len
      < (AddMetricSeq ro sink k ms).1.MetricBatchSize ∧
    (AddMetricSeq ro sink k ms).1.metrics.drops = 0 := by
  induction ms with
  | nil =>
    intro ro sink k h1 h2 h3
    exact ⟨h1, h2, h3⟩
  | cons m ms ih =>
    intro ro sink k h1 h2 h3
    have hstep : AddMetricSeq ro sink k (m :: ms)
        = AddMetricSeq (ro.AddMetric sink k m).1 sink (ro.AddMetric sink k m).2 ms := rfl
    rw [hstep]
    obtain ⟨g1, g2, g3⟩ := AddMetric_primary_inv ro sink k m h1 h2 h3
    exact ih _ sink _ g1 g2 g3

/-- C10: under any sequence of sequential `AddMetric` calls on a freshly
constructed output stage, the primary buffer's drop counter stays 0 — the
eviction branch of `Add` (the only place that increments it) is never
taken — because the primary capacity equals the batch size and a full
batch is extracted the moment the length reaches it, keeping the length
strictly below capacity. -/
theorem C10_primary_never_drops (name : String) (conf : OutputConfig)
    (bs bl : Nat) (sink : Nat → Bool) (k : Nat) (ms : List Metric) :
    (AddMetricSeq (NewRunningOutput name conf bs bl) sink k ms).1.metrics.drops = 0 ∧
    (AddMetricSeq (NewRunningOutput name conf bs bl) sink k ms).1.metrics.Len
      < (AddMetricSeq (NewRunningOutput name conf bs bl) sink k ms).1.MetricBatchSize ∧
    (AddMetricSeq (NewRunningOutput name conf bs bl) sink k ms).1.metrics.size
      = (AddMetricSeq (NewRunningOutput name conf bs bl) sink k ms).1.MetricBatchSize := by
  have h1 : (NewRunningOutput name conf bs bl).metrics.size
      = (NewRunningOutput name conf bs bl).MetricBatchSize := by
    unfold NewRunningOutput
    by_cases hbs : bs = 0 <;> simp [hbs, NewBuffer]
  have h2 : (NewRunningOutput name conf bs bl).metrics.Len
      < (NewRunningOutput name conf bs bl).MetricBatchSize := by
    unfold NewRunningOutput
    by_cases hbs : bs = 0
    · simp [hbs, NewBuffer, Buffer.Len, DEFAULT_METRIC_BATCH_SIZE]
    · simp only [hbs, if_false, NewBuffer, Buffer.Len, List.length_nil]
      omega
  have h3 : (NewRunningOutput name conf bs bl).metrics.drops = 0 := by
    unfold NewRunningOutput
    by_cases hbs : bs = 0 <;> simp [hbs, NewBuffer]
  obtain ⟨g1, g2, g3⟩ := AddMetricSeq_primary_inv ms (NewRunningOutput name conf bs bl)
    sink k h1 h2 h3
  exact ⟨g3, g2, g1⟩

/-! ### Lemmas about the fail-buffer drain loop -/

theorem write_ok_eq (ro : RunningOutput) (sink : Nat → Bool) (k : Nat)
    (ms : List Metric) :
    (ro.write sink k ms).ok = if ms.length = 0 then true else sink k := by
  unfold RunningOutput.write
  split <;> rfl

theorem write_k_eq (ro : RunningOutput) (sink : Nat → Bool) (k : Nat)
    (ms : List Metric) :
    (ro.write sink k ms).k = if ms.length = 0 then k else k + 1 := by
  unfold RunningOutput.write
  split <;> rfl

/-- Frame facts about one drain-loop iteration: the primary buffer, the
batch size and the fail-buffer capacity are untouched; the extracted count
is `min(length, bS)`; the sink counter advances iff the batch was
non-empty. -/
theorem drainStep_frame (ro : RunningOutput) (sink : Nat → Bool) (k bS : Nat) :
    (ro.drainStep sink k bS).1.metrics = ro.metrics ∧
    (ro.drainStep sink k bS).1.MetricBatchSize = ro.MetricBatchSize ∧
    (ro.drainStep sink k bS).1.failMetrics.size = ro.failMetrics.size ∧
    (ro.drainStep sink k bS).2.2 = min ro.failMetrics.Len bS ∧
    (ro.drainStep sink k bS).2.1
      = (if (ro.drainStep sink k bS).2.2 = 0 then k else k + 1) := by
  unfold RunningOutput.drainStep
  simp only [write_ro]
  refine ⟨?_, ?_, ?_, ?_, ?_⟩
  · split <;> rfl
  · split <;> rfl
  · split
    · show (ro.failMetrics.Batch bS).2.size = ro.failMetrics.size
      rw [Batch_snd]
    · show ((ro.failMetrics.Batch bS).2.Add (ro.failMetrics.Batch bS).1).size
        = ro.failMetrics.size
      rw [Add_size, Batch_snd]
  · exact Batch_fst_length ro.failMetrics bS
  · rw [write_k_eq]

/-- When the requested batch size is available, one drain-loop iteration
extracts exactly `bS` metrics, removes at most `bS` from the fail buffer
(failure re-queues them all), and never exceeds the capacity. -/
theorem drainStep_len (ro : RunningOutput) (sink : Nat → Bool) (k bS : Nat)
    (hcap : ro.failMetrics.Len ≤ ro.failMetrics.size)
    (hble : bS ≤ ro.failMetrics.Len) :
    (ro.drainStep sink k bS).2.2 = bS ∧
    ro.failMetrics.Len - bS ≤ (ro.drainStep sink k bS).1.failMetrics.Len ∧
    (ro.drainStep sink k bS).1.failMetrics.Len ≤ ro.failMetrics.size := by
  have hp2len : (ro.failMetrics.Batch bS).2.Len = ro.failMetrics.Len - bS := by
    rw [Batch_snd]
    show (ro.failMetrics.buf.drop bS).length = ro.failMetrics.Len - bS
    rw [List.length_drop]
    rfl
  have hp1len : (ro.failMetrics.Batch bS).1.length = bS := by
    rw [Batch_fst_length]
    omega
  have hp2size : (ro.failMetrics.Batch bS).2.size = ro.failMetrics.size := by
    rw [Batch_snd]
  unfold RunningOutput.drainStep
  simp only [write_ro]
  refine ⟨hp1len, ?_⟩
  split
  · constructor
    · show ro.failMetrics.Len - bS ≤ (ro.failMetrics.Batch bS).2.Len
      omega
    · show (ro.failMetrics.Batch bS).2.Len ≤ ro.failMetrics.size
      omega
  · rename_i hfail
    have hl : (ro.failMetrics.Batch bS).1.length ≠ 0 := by
      intro h0
      apply hfail
      rw [write_ok_eq, if_pos h0]
    have hbpos : bS ≠ 0 := by
      rw [hp1len] at hl
      exact hl
    have hpos2 : 0 < (ro.failMetrics.Batch bS).2.size := by omega
    have hroom2 : (ro.failMetrics.Batch bS).2.buf.length
        + (ro.failMetrics.Batch bS).1.length ≤ (ro.failMetrics.Batch bS).2.size := by
      have h1 : (ro.failMetrics.Batch bS).2.buf.length = ro.failMetrics.Len - bS := hp2len
      omega
    obtain ⟨hbufA, _⟩ := Add_room (ro.failMetrics.Batch bS).2 (ro.failMetrics.Batch bS).1
      hpos2 hroom2
    have hlenA : ((ro.failMetrics.Batch bS).2.Add (ro.failMetrics.Batch bS).1).Len
        = ro.failMetrics.Len := by
      show ((ro.failMetrics.Batch bS).2.Add (ro.failMetrics.Batch bS).1).buf.length
        = ro.failMetrics.Len
      rw [hbufA, List.length_append]
      have h1 : (ro.failMetrics.Batch bS).2.buf.length = ro.failMetrics.Len - bS := hp2len
      omega
    constructor
    · show ro.failMetrics.Len - bS
        ≤ ((ro.failMetrics.Batch bS).2.Add (ro.failMetrics.Batch bS).1).Len
      omega
    · show ((ro.failMetrics.Batch bS).2.Add (ro.failMetrics.Batch bS).1).Len
        ≤ ro.failMetrics.size
      omega

theorem drainGo_zero (sink : Nat → Bool) (bufLen : Nat) (ro : RunningOutput)
    (k : Nat) : RunningOutput.drainGo sink bufLen 0 ro k = ⟨ro, k, []⟩ := rfl

theorem drainGo_succ_ro (sink : Nat → Bool) (bufLen s : Nat)
    (ro : RunningOutput) (k : Nat) :
    (RunningOutput.drainGo sink bufLen (s + 1) ro k).ro
      = (RunningOutput.drainGo sink bufLen s
          (ro.drainStep sink k
            (if s = 0 then bufLen % ro.MetricBatchSize else ro.MetricBatchSize)).1
          (ro.drainStep sink k
            (if s = 0 then bufLen % ro.MetricBatchSize else ro.MetricBatchSize)).2.1).ro :=
  rfl

theorem drainGo_succ_k (sink : Nat → Bool) (bufLen s : Nat)
    (ro : RunningOutput) (k : Nat) :
    (RunningOutput.drainGo sink bufLen (s + 1) ro k).k
      = (RunningOutput.drainGo sink bufLen s
          (ro.drainStep sink k
            (if s = 0 then bufLen % ro.MetricBatchSize else ro.MetricBatchSize)).1
          (ro.drainStep sink k
            (if s = 0 then bufLen % ro.MetricBatchSize else ro.MetricBatchSize)).2.1).k :=
  rfl

theorem drainGo_succ_trace (sink : Nat → Bool) (bufLen s : Nat)
    (ro : RunningOutput) (k : Nat) :
    (RunningOutput.drainGo sink bufLen (s + 1) ro k).trace
      = (ro.drainStep sink k
          (if s = 0 then bufLen % ro.MetricBatchSize else ro.MetricBatchSize)).2.2
        :: (RunningOutput.drainGo sink bufLen s
          (ro.drainStep sink k
            (if s = 0 then bufLen % ro.MetricBatchSize else ro.MetricBatchSize)).1
          (ro.drainStep sink k
            (if s = 0 then bufLen % ro.MetricBatchSize else ro.MetricBatchSize)).2.1).trace :=
  rfl

/-- The drain loop never touches the primary buffer or the batch size, and
its final sink counter is the initial one plus the number of non-empty
batches it extracted (one sink invocation per non-empty batch). -/
theorem drainGo_frame (sink : Nat → Bool) (bufLen : Nat) :
    ∀ (rem : Nat) (ro : RunningOutput) (k : Nat),
    (RunningOutput.drainGo sink bufLen rem ro k).ro.metrics = ro.metrics ∧
    (RunningOutput.drainGo sink bufLen rem ro k).ro.MetricBatchSize
      = ro.MetricBatchSize ∧
    (RunningOutput.drainGo sink bufLen rem ro k).k
      = k + (RunningOutput.drainGo sink bufLen rem ro k).trace.countP
          (fun n => decide (0 < n)) := by
  intro rem
  induction rem with
  | zero =>
    intro ro k
    rw [drainGo_zero]
    exact ⟨rfl, rfl, by simp⟩
  | succ s ih =>
    intro ro k
    obtain ⟨hm, hb, hsz, he, hk⟩ := drainStep_frame ro sink k
      (if s = 0 then bufLen % ro.MetricBatchSize else ro.MetricBatchSize)
    obtain ⟨gm, gb, gk⟩ := ih
      (ro.drainStep sink k
        (if s = 0 then bufLen % ro.MetricBatchSize else ro.MetricBatchSize)).1
      (ro.drainStep sink k
        (if s = 0 then bufLen % ro.MetricBatchSize else ro.MetricBatchSize)).2.1
    refine ⟨?_, ?_, ?_⟩
    · rw [drainGo_succ_ro, gm, hm]
    · rw [drainGo_succ_ro, gb, hb]
    · rw [drainGo_succ_k, drainGo_succ_trace, gk]
      simp only [List.countP_cons]
      by_cases h0 : (ro.drainStep sink k
          (if s = 0 then bufLen % ro.MetricBatchSize else ro.MetricBatchSize)).2.2 = 0
      · rw [hk, if_pos h0, h0]
        simp
      · rw [hk, if_neg h0]
        have hd : decide (0 < (ro.drainStep sink k
            (if s = 0 then bufLen % ro.MetricBatchSize else ro.MetricBatchSize)).2.2)
            = true := decide_eq_true (by omega)
        rw [hd, if_pos rfl]
        omega

/-- The ghost trace of the drain loop over a fail buffer holding enough
metrics: every iteration except the last extracts exactly the configured
batch size `b`, and the last extracts exactly `bufLen % b`. -/
theorem drainGo_trace (sink : Nat → Bool) (bufLen b : Nat) :
    ∀ (rem : Nat) (ro : RunningOutput) (k : Nat),
    ro.MetricBatchSize = b →
    0 < rem →
    (rem - 1) * b + bufLen % b ≤ ro.failMetrics.Len →
    ro.failMetrics.Len ≤ ro.failMetrics.size →
    (RunningOutput.drainGo sink bufLen rem ro k).trace
      = List.replicate (rem - 1) b ++ [bufLen % b] := by
  intro rem
  induction rem with
  | zero =>
    intro ro k _ h0 _ _
    exact absurd h0 (by omega)
  | succ s ih =>
    intro ro k hbs hpos hinv hcap
    rw [drainGo_succ_trace]
    rcases Nat.eq_zero_or_pos s with hs | hs
    · subst hs
      have h00 : (if (0 : Nat) = 0 then bufLen % ro.MetricBatchSize
          else ro.MetricBatchSize) = bufLen % ro.MetricBatchSize := if_pos rfl
      rw [h00]
      have hr : bufLen % ro.MetricBatchSize ≤ ro.failMetrics.Len := by
        rw [hbs]
        simpa using hinv
      obtain ⟨hst, _, _⟩ := drainStep_len ro sink k (bufLen % ro.MetricBatchSize)
        hcap hr
      rw [drainGo_zero, hst, hbs]
      rfl
    · obtain ⟨t, rfl⟩ : ∃ t, s = t + 1 := ⟨s - 1, by omega⟩
      have h01 : (if (t + 1 : Nat) = 0 then bufLen % ro.MetricBatchSize
          else ro.MetricBatchSize) = ro.MetricBatchSize := if_neg (by omega)
      rw [h01]
      have hmul : (t + 1 + 1 - 1) * b = t * b + b := by
        rw [Nat.add_sub_cancel, Nat.succ_mul]
      rw [hmul] at hinv
      have hble : ro.MetricBatchSize ≤ ro.failMetrics.Len := by
        rw [hbs]
        omega
      obtain ⟨hst, hlo, hhi⟩ := drainStep_len ro sink k ro.MetricBatchSize hcap hble
      obtain ⟨hm, hbb, hsz, _, _⟩ := drainStep_frame ro sink k ro.MetricBatchSize
      have hrec := ih (ro.drainStep sink k ro.MetricBatchSize).1
        (ro.drainStep sink k ro.MetricBatchSize).2.1
        (by rw [hbb, hbs])
        (by omega)
        (by
          have h1 : (t + 1 - 1) * b = t * b := by
            rw [Nat.add_sub_cancel]
          rw [h1]
          omega)
        (by rw [hsz]; omega)
      rw [hrec, hst, hbs]
      have h2 : (t + 1 + 1 - 1) = t + 1 := by omega
      have h3 : (t + 1 - 1) = t := by omega
      rw [h2, h3, List.replicate_succ, List.cons_append]

/-! ### Lemmas about `Write` -/

/-- The drain phase of `Write` leaves the primary buffer and the batch
size alone and advances the sink counter by one per non-empty extracted
batch. -/
theorem WriteDrain_char (ro : RunningOutput) (sink : Nat → Bool) (k : Nat) :
    (ro.WriteDrain sink k).ro.metrics = ro.metrics ∧
    (ro.WriteDrain sink k).ro.MetricBatchSize = ro.MetricBatchSize ∧
    (ro.WriteDrain sink k).k
      = k + (ro.WriteDrain sink k).trace.countP (fun n => decide (0 < n)) := by
  unfold RunningOutput.WriteDrain
  split
  · exact drainGo_frame sink ro.failMetrics.Len
      (ro.failMetrics.Len / ro.MetricBatchSize + 1) ro k
  · exact ⟨rfl, rfl, by simp⟩

/-- `Write` reports exactly the drain phase's ghost trace, and returns an
error exactly when the batch extracted from the (drain-untouched) primary
buffer is non-empty and its sink invocation fails. -/
theorem Write_parts (ro : RunningOutput) (sink : Nat → Bool) (k : Nat) :
    (ro.Write sink k).trace = (ro.WriteDrain sink k).trace ∧
    ((ro.Write sink k).ok = false ↔
      ((ro.WriteDrain sink k).ro.metrics.Batch
          (ro.WriteDrain sink k).ro.MetricBatchSize).1.length ≠ 0 ∧
        sink (ro.WriteDrain sink k).k = false) := by
  unfold RunningOutput.Write
  constructor
  · dsimp only
    split <;> rfl
  · dsimp only
    split
    · rename_i hok
      rw [write_ok_eq] at hok
      constructor
      · intro habs
        exact absurd habs (by simp)
      · rintro ⟨h1, h2⟩
        rw [if_neg h1, h2] at hok
        exact absurd hok (by simp)
    · rename_i hok
      rw [write_ok_eq] at hok
      constructor
      · intro _
        by_cases hl : ((ro.WriteDrain sink k).ro.metrics.Batch
            (ro.WriteDrain sink k).ro.MetricBatchSize).1.length = 0
        · rw [if_pos hl] at hok
          exact absurd rfl hok
        · refine ⟨hl, ?_⟩
          rw [if_neg hl] at hok
          cases hsb : sink (ro.WriteDrain sink k).k
          · rfl
          · rw [hsb] at hok
            exact absurd rfl hok
      · intro _
        rfl

/-- C5: `Write` returns an error if and only if the final primary-buffer
send fails — the primary batch is non-empty and the sink rejects the one
invocation made after all drain-phase invocations — while sink failures
during the fail-buffer drain are absorbed by re-queuing and never surface
in the return value. -/
theorem C5_error_only_from_final_flush (ro : RunningOutput)
    (sink : Nat → Bool) (k : Nat) (hb : 0 < ro.MetricBatchSize) :
    ((ro.Write sink k).ok = false ↔
      ro.metrics.buf ≠ [] ∧
        sink (k + (ro.Write sink k).trace.countP (fun n => decide (0 < n)))
          = false) := by
  obtain ⟨hm, hbb, hk⟩ := WriteDrain_char ro sink k
  obtain ⟨htr, hiff⟩ := Write_parts ro sink k
  rw [htr, hiff, hm, hbb, hk]
  have hlen : (((ro.metrics.Batch ro.MetricBatchSize).1.length ≠ 0)
      ↔ ro.metrics.buf ≠ []) := by
    rw [Batch_fst_length]
    have hL : ro.metrics.Len = ro.metrics.buf.length := rfl
    constructor
    · intro h hnil
      apply h
      rw [hL, hnil]
      simp
    · intro h
      have hne : ro.metrics.buf.length ≠ 0 :=
        fun hz => h (List.eq_nil_of_length_eq_zero hz)
      rw [hL]
      omega
  rw [hlen]

/-- C5 witness: one metric in the primary buffer against the failing sink
makes `Write` return the error. -/
theorem C5_error_only_from_final_flush_witness :
    (roHalf.Write failSink 0).ok = false := by
  have h := C5_error_only_from_final_flush roHalf failSink 0 (by decide)
  exact h.mpr ⟨by decide, by decide⟩

/-- C4: with a non-empty fail buffer of length `failLen` and batch size
`batchSize > 0`, `Write` drains the fail buffer in exactly
`nBatches = failLen / batchSize + 1` extractions, every one of size
`batchSize` except the last of size `failLen % batchSize` (a zero
remainder giving an empty trailing no-op batch); and in the concrete
scenario — batch size 2, fail buffer `[m1, m2]`, always-failing sink —
`Write` returns success and the fail buffer still holds `[m1, m2]`. -/
theorem C4_drain_batch_arithmetic (ro : RunningOutput) (sink : Nat → Bool)
    (k : Nat) (hb : 0 < ro.MetricBatchSize) (hne : ro.failMetrics.Len ≠ 0)
    (hcap : ro.failMetrics.Len ≤ ro.failMetrics.size) :
    (ro.Write sink k).trace
      = List.replicate (ro.failMetrics.Len / ro.MetricBatchSize)
          ro.MetricBatchSize
        ++ [ro.failMetrics.Len % ro.MetricBatchSize] ∧
    (ro.Write sink k).trace.length
      = ro.failMetrics.Len / ro.MetricBatchSize + 1 ∧
    (roScenB.Write failSink 0).ok = true ∧
    (roScenB.Write failSink 0).ro.failMetrics.buf
      = [mkMetric "m1", mkMetric "m2"] := by
  have htr := (Write_parts ro sink k).1
  have hE : ro.failMetrics.IsEmpty = false := by
    unfold Buffer.IsEmpty
    exact decide_eq_false hne
  have hWD : ro.WriteDrain sink k
      = RunningOutput.drainGo sink ro.failMetrics.Len
          (ro.failMetrics.Len / ro.MetricBatchSize + 1) ro k := by
    unfold RunningOutput.WriteDrain
    rw [hE]
    rfl
  have hdm : ro.MetricBatchSize * (ro.failMetrics.Len / ro.MetricBatchSize)
      + ro.failMetrics.Len % ro.MetricBatchSize = ro.failMetrics.Len :=
    Nat.div_add_mod ro.failMetrics.Len ro.MetricBatchSize
  have hinv : ((ro.failMetrics.Len / ro.MetricBatchSize + 1) - 1)
        * ro.MetricBatchSize
      + ro.failMetrics.Len % ro.MetricBatchSize ≤ ro.failMetrics.Len := by
    rw [Nat.add_sub_cancel, Nat.mul_comm]
    omega
  have hmain := drainGo_trace sink ro.failMetrics.Len ro.MetricBatchSize
    (ro.failMetrics.Len / ro.MetricBatchSize + 1) ro k rfl (Nat.succ_pos _)
    hinv hcap
  rw [Nat.add_sub_cancel] at hmain
  refine ⟨?_, ?_, ?_, ?_⟩
  · rw [htr, hWD, hmain]
  · rw [htr, hWD, hmain]
    rw [List.length_append, List.length_replicate, List.length_singleton]
  · decide
  · decide

/-- C4 witness: the scenario-B state itself satisfies the hypotheses, and
its drain trace is one full batch of 2 followed by the empty trailing
batch. -/
theorem C4_drain_batch_arithmetic_witness :
    (roScenB.Write failSink 0).trace = [2, 0] := by
  have h := C4_drain_batch_arithmetic roScenB failSink 0
    (by decide) (by decide) (by decide)
  rw [h.1]
  rfl

end Telegraf
